import Mathlib

/-!
Verification development for the bombsquad-server repository.

The repository holds two JavaScript listings of the same game server:
src/server.js (the running server) and a second, related listing embedded in
src/README.md (with reconnection-tracker logic and a floored bomb-count
decrement).  Both are shallowly embedded below: the namespace Bombsquad holds
the src/server.js variant, and Bombsquad.V2 holds the README-variant pieces
(transition records, rejoin and the joinRoom handler) that differ.

Modelling conventions, each noted at its definition:
  * JavaScript Map objects become association lists that keep insertion
    order; Map.set replaces in place, Map.delete removes the key.
  * Math.random calls (block layout, power-up spawning) become explicit
    oracle parameters, as the spec itself asks for an injectable random
    source.
  * Date.now timestamps and the randomised fragment of generated id strings
    are supplied by the caller (the ids are opaque to every operation).
  * The float comparison Math.sqrt(dx*dx+dy*dy) < 40 is embedded as
    dx*dx + dy*dy < 1600 over the integers, which is equivalent for real
    arithmetic since both sides are non-negative.
  * socket.emit / broadcastToRoom become explicit event lists; setTimeout
    callbacks become explicit scheduled-action lists.
-/

namespace Bombsquad

/-! ## Association lists mirroring JavaScript Map semantics -/

/-- JavaScript Map.get: the value at the first matching key. -/
def alGet {α β : Type} [DecidableEq α] (m : List (α × β)) (k : α) : Option β :=
  match m with
  | [] => none
  | (k', v) :: rest => if k' = k then some v else alGet rest k

/-- JavaScript Map.set: replace in place when the key is present (a Map keeps
the original insertion position), append otherwise. -/
def alSet {α β : Type} [DecidableEq α] (m : List (α × β)) (k : α) (v : β) :
    List (α × β) :=
  match m with
  | [] => [(k, v)]
  | (k', v') :: rest =>
      if k' = k then (k, v) :: rest else (k', v') :: alSet rest k v

/-- JavaScript Map.delete: drop every entry with the key (a Map holds at most
one, so this is the same as dropping the first). -/
def alDelete {α β : Type} [DecidableEq α] (m : List (α × β)) (k : α) :
    List (α × β) :=
  m.filter (fun kv => decide (kv.1 ≠ k))

/-! ## Scalar helpers for JavaScript idioms -/

/-- Math.max lo (Math.min hi v), the clamping pattern of updatePlayer. -/
def clampI (lo hi v : Int) : Int := max lo (min hi v)

/-- The JavaScript expression v || d for an integer v: 0 is falsy, so the
default d is taken exactly when v = 0. -/
def jsOr (v d : Int) : Int := if v = 0 then d else v

/-- Math.round(v / 64) * 64 for an integer v: JavaScript rounds half toward
positive infinity, which is floor (v / 64 + 1 / 2), so the snapped value is
((v + 32) floor-div 64) * 64. -/
def snap64 (v : Int) : Int := ((v + 32).fdiv 64) * 64

/-! ## Data model -/

/-- type field of a power-up: one of speed, bombs, power, health. -/
inductive PType : Type
  | speed
  | bombs
  | power
  | health
deriving DecidableEq, Repr

/-- gameState field of a room: waiting, playing or finished. -/
inductive GState : Type
  | waiting
  | playing
  | finished
deriving DecidableEq, Repr

/-- A destructible block: position and id string. -/
structure Block : Type where
  x : Int
  y : Int
  id : String
deriving DecidableEq, Repr

/-- A player object of server.js.  The powerUps sub-object is flattened into
speed, puBombs and puPower; the lastUpdate timestamp field of the README
variant carries no behaviour and is elided.  speed is a rational standing for
the JavaScript float multiplier. -/
structure Player : Type where
  id : Nat
  socket : String
  name : String
  x : Int
  y : Int
  health : Int
  isAlive : Bool
  bombCapacity : Nat
  bombCount : Int
  bombPower : Nat
  speed : ℚ
  puBombs : Nat
  puPower : Nat
deriving DecidableEq, Repr

/-- A bomb object.  fuseTime is the constant 3000 stored at placement; the
placedAt timestamp is elided (no operation reads it). -/
structure Bomb : Type where
  id : String
  x : Int
  y : Int
  owner : Nat
  power : Nat
  fuseTime : Nat
deriving DecidableEq, Repr

/-- A power-up object; the spawnedAt timestamp is elided (only the README
variant's periodic cleanup reads it). -/
structure PowerUp : Type where
  id : String
  type : PType
  x : Int
  y : Int
deriving DecidableEq, Repr

/-- An outbound emission: the named event sent to one socket.  broadcastToRoom
expands to one emission per seated player (the source silently skips a socket
that is no longer connected; connectivity carries no room state and is not
modelled). -/
structure Ev : Type where
  sock : String
  name : String
deriving DecidableEq, Repr

/-- A deferred action produced by a handler: the guarded auto-start timeout of
joinRoom, or a setTimeout that will call explodeBomb after the given delay. -/
inductive Sched : Type
  | autoStart (roomId : String)
  | detonate (bombId : String) (delayMs : Nat)
deriving DecidableEq, Repr

/-- An entry of the process-wide playerSockets table: socket id to room and
player id. -/
structure PInfo : Type where
  roomId : String
  playerId : Nat
deriving DecidableEq, Repr

/-- A GameRoom of server.js. gameStartTime and the sync interval are elided:
no modelled operation reads them. -/
structure Room : Type where
  roomId : String
  maxPlayers : Nat
  players : List (Nat × Player)
  gameState : GState
  bombs : List (String × Bomb)
  powerUps : List (String × PowerUp)
  destructibleBlocks : List Block
  roundTimer : Nat
deriving DecidableEq, Repr

/-! ## Room construction (initializeDestructibleBlocks) -/

/-- The four spawn-corner positions checked by the layout scan. -/
def layoutCorners : List (Int × Int) := [(64, 64), (960, 64), (64, 704), (960, 704)]

/-- The fixed indestructible landmark positions skipped by the layout scan. -/
def indestructiblePositions : List (Int × Int) :=
  [(200, 200), (200, 400), (200, 600),
   (400, 200), (400, 600),
   (600, 200), (600, 600),
   (800, 200), (800, 400), (800, 600)]

/-- The tooClose test of initializeDestructibleBlocks: within 100 of a spawn
corner on both axes, or within 50 of an indestructible landmark on both axes. -/
def tooClose (x y : Int) : Bool :=
  layoutCorners.any (fun c =>
      decide ((x - c.1).natAbs < 100) && decide ((y - c.2).natAbs < 100))
  || indestructiblePositions.any (fun c =>
      decide ((x - c.1).natAbs < 50) && decide ((y - c.2).natAbs < 50))

/-- The grid cells the layout scan visits: x from 100 below 924 in steps of
64 (outer loop), y from 100 below 668 in steps of 64 (inner loop). -/
def layoutCells : List (Int × Int) :=
  (List.range 13).flatMap (fun i =>
    (List.range 9).map (fun j => ((100 + 64 * i : Int), (100 + 64 * j : Int))))

/-- initializeDestructibleBlocks, with the Math.random() < 0.6 coin for each
cell supplied by the oracle. -/
def initializeDestructibleBlocks (oracle : Int → Int → Bool) : List Block :=
  layoutCells.filterMap (fun c =>
    if !tooClose c.1 c.2 && oracle c.1 c.2 then
      some ⟨c.1, c.2, "block_" ++ toString c.1 ++ "_" ++ toString c.2⟩
    else none)

/-- The GameRoom constructor. -/
def mkRoom (roomId : String) (maxPlayers : Nat) (oracle : Int → Int → Bool) :
    Room :=
  { roomId := roomId
    maxPlayers := maxPlayers
    players := []
    gameState := .waiting
    bombs := []
    powerUps := []
    destructibleBlocks := initializeDestructibleBlocks oracle
    roundTimer := 120 }

/-! ## GameRoom operations (server.js variant) -/

/-- The four fixed spawn positions indexed by playerId - 1.  An index past
the fourth position is undefined in the source (a crash on field access); the
default (0, 0) is never reached while maxPlayers is at most 4. -/
def spawnPositions : List (Int × Int) := [(64, 64), (960, 64), (64, 704), (960, 704)]

/-- GameRoom.addPlayer: reject when full, otherwise seat a fresh player at
slot players.size + 1 (note: this expression, not a never-used slot number).
playerData.name defaults to the string Player followed by the slot. -/
def addPlayer (r : Room) (socketId : String) (nameData : Option String) :
    Option Player × Room :=
  if r.maxPlayers ≤ r.players.length then (none, r)
  else
    let playerId := r.players.length + 1
    let spawn := spawnPositions.getD (playerId - 1) (0, 0)
    let player : Player :=
      { id := playerId
        socket := socketId
        name := nameData.getD ("Player " ++ toString playerId)
        x := spawn.1
        y := spawn.2
        health := 100
        isAlive := true
        bombCapacity := 1
        bombCount := 0
        bombPower := 3
        speed := 1
        puBombs := 0
        puPower := 0 }
    (some player, { r with players := alSet r.players playerId player })

/-- GameRoom.removePlayer: delete the first player whose socket matches and
return its slot; no other slot is renumbered. -/
def removePlayer (r : Room) (socketId : String) : Option Nat × Room :=
  match r.players.find? (fun kp => kp.2.socket = socketId) with
  | none => (none, r)
  | some kp => (some kp.1, { r with players := alDelete r.players kp.1 })

/-- GameRoom.canStartGame. -/
def canStartGame (r : Room) : Bool :=
  decide (2 ≤ r.players.length) && decide (r.gameState = .waiting)

/-- GameRoom.startGame: phase to playing, round clock reset (gameStartTime
and the periodic sync interval are elided). -/
def startGame (r : Room) : Room :=
  { r with gameState := .playing, roundTimer := 120 }

/-- GameRoom.updatePlayer: reject when the slot is absent or the player is
dead; otherwise each coordinate goes through the JavaScript pattern
updateData.x || player.x (0 is falsy) and is clamped to the 32-unit margin. -/
def updatePlayer (r : Room) (playerId : Nat) (ux uy : Int) : Room × Bool :=
  match alGet r.players playerId with
  | none => (r, false)
  | some p =>
      if p.isAlive then
        let p' := { p with
          x := clampI 32 (1024 - 32) (jsOr ux p.x)
          y := clampI 32 (768 - 32) (jsOr uy p.y) }
        ({ r with players := alSet r.players playerId p' }, true)
      else (r, false)

/-- GameRoom.placeBomb: reject when the slot is absent, the player is dead or
at capacity, or a live bomb sits within 32 units of the snapped cell on both
axes; otherwise record the bomb and increment the owner's live count.  The
bombId string (Date.now plus owner in the source) is supplied by the caller. -/
def placeBomb (r : Room) (playerId : Nat) (x y : Int) (bombId : String) :
    Option Bomb × Room :=
  match alGet r.players playerId with
  | none => (none, r)
  | some p =>
      if !p.isAlive || decide ((p.bombCapacity : Int) ≤ p.bombCount) then (none, r)
      else
        let bombX := snap64 x
        let bombY := snap64 y
        if r.bombs.any (fun kb =>
            decide ((kb.2.x - bombX).natAbs < 32) &&
            decide ((kb.2.y - bombY).natAbs < 32)) then (none, r)
        else
          let bomb : Bomb :=
            { id := bombId, x := bombX, y := bombY, owner := playerId
              power := p.bombPower, fuseTime := 3000 }
          (some bomb,
           { r with
              bombs := alSet r.bombs bombId bomb
              players := alSet r.players playerId
                { p with bombCount := p.bombCount + 1 } })

/-! ## Explosion engine (calculateExplosion) -/

/-- The four axis directions, in the source's order. -/
def explosionDirections : List (Int × Int) := [(1, 0), (-1, 0), (0, 1), (0, -1)]

/-- The blocked test of the direction loop: some destructible block within 32
units of the checked cell on both axes. -/
def isBlocked (blocks : List Block) (cx cy : Int) : Bool :=
  blocks.any (fun b =>
    decide ((b.x - cx).natAbs < 32) && decide ((b.y - cy).natAbs < 32))

/-- The out-of-bounds test of the direction loop: past the 50-unit margin of
the 1024 by 768 arena. -/
def outOfBounds (cx cy : Int) : Bool :=
  decide (cx < 50) || decide (1024 - 50 < cx) || decide (cy < 50) || decide (768 - 50 < cy)

/-- One direction of the calculateExplosion loop, stepping i, i+1, ... while
fuel (the remaining blast power) lasts: stop before an out-of-bounds cell,
push a blocked cell and stop, push an ordinary cell and continue. -/
def explodeDirAux (x y dx dy : Int) (blocks : List Block) :
    Nat → Nat → List (Int × Int)
  | _, 0 => []
  | i, fuel + 1 =>
      let cx := x + dx * 64 * (i : Int)
      let cy := y + dy * 64 * (i : Int)
      if outOfBounds cx cy then []
      else if isBlocked blocks cx cy then [(cx, cy)]
      else (cx, cy) :: explodeDirAux x y dx dy blocks (i + 1) fuel

/-- GameRoom.calculateExplosion: the origin cell followed by the run of each
of the four directions. -/
def calculateExplosion (x y : Int) (power : Nat) (blocks : List Block) :
    List (Int × Int) :=
  (x, y) :: explosionDirections.flatMap
    (fun d => explodeDirAux x y d.1 d.2 blocks 1 power)

/-! ## Detonation (explodeBomb) and its helpers -/

/-- The proximity test distance < 40 of the damage and chain loops, embedded
without the square root: dx^2 + dy^2 < 1600. -/
def near40 (px py ax ay : Int) : Bool :=
  decide ((px - ax) * (px - ax) + (py - ay) * (py - ay) < 1600)

/-- The damage loop of explodeBomb: an alive player within 40 units of some
affected cell takes 25 damage once (the loop breaks at the first matching
cell) and dies when health drops to 0 or below. -/
def damagePlayers (areas : List (Int × Int)) (players : List (Nat × Player)) :
    List (Nat × Player) :=
  players.map (fun kp =>
    let p := kp.2
    if p.isAlive && areas.any (fun a => near40 p.x p.y a.1 a.2) then
      let h := p.health - 25
      (kp.1, { p with health := h, isAlive := if h ≤ 0 then false else p.isAlive })
    else kp)

/-- The chain-reaction loop of explodeBomb: every other still-live bomb
within 40 units of some affected cell is scheduled for its own detonation
(after 50 ms in the source) rather than detonated inline. -/
def chainIds (bombId : String) (areas : List (Int × Int))
    (bombs : List (String × Bomb)) : List String :=
  bombs.filterMap (fun kb =>
    if kb.2.id = bombId then none
    else if areas.any (fun a => near40 kb.2.x kb.2.y a.1 a.2) then some kb.2.id
    else none)

/-- The block-destruction filter of explodeBomb: a block within 32 units of
some affected cell on both axes is removed; each removal consumes one entry
of the spawn oracle (the Math.random() < 0.3 coin together with the uniformly
chosen type), and a spawned power-up takes an id derived from the block (a
fresh random string in the source).  Returns the kept blocks, destroyed
blocks and spawned power-ups, each in traversal order. -/
def destroyBlocks (areas : List (Int × Int)) :
    List Block → List (Option PType) →
    List Block × List Block × List (String × PowerUp)
  | [], _ => ([], [], [])
  | b :: rest, oracle =>
      if areas.any (fun a =>
          decide ((b.x - a.1).natAbs < 32) && decide ((b.y - a.2).natAbs < 32)) then
        let spawn := oracle.headD none
        let rec' := destroyBlocks areas rest oracle.tail
        let pus :=
          match spawn with
          | some t => ("powerup_" ++ b.id, (⟨"powerup_" ++ b.id, t, b.x, b.y⟩ : PowerUp)) :: rec'.2.2
          | none => rec'.2.2
        (rec'.1, b :: rec'.2.1, pus)
      else
        let rec' := destroyBlocks areas rest oracle
        (b :: rec'.1, rec'.2.1, rec'.2.2)

/-- GameRoom.broadcastToRoom: one emission per seated player's socket. -/
def broadcastToRoom (r : Room) (evName : String) : List Ev :=
  r.players.map (fun kp => ⟨kp.2.socket, evName⟩)

/-- GameRoom.checkWinCondition: when at most one player is alive, the phase
becomes finished and gameOver is broadcast. -/
def checkWinCondition (r : Room) : Room × List Ev :=
  let alive := r.players.filter (fun kp => kp.2.isAlive)
  if alive.length ≤ 1 then
    ({ r with gameState := .finished }, broadcastToRoom r "gameOver")
  else (r, [])

/-- GameRoom.explodeBomb of server.js: a no-op when the bomb id is no longer
present; otherwise delete the bomb, decrement the owner's live count (note:
without a floor in this variant), apply blast damage, collect the chain
detonations to schedule, destroy blocks and spawn power-ups per the oracle,
broadcast bombExploded, then check the win condition.  Returns the room, the
emissions, and the chain-scheduled bomb ids. -/
def explodeBomb (r : Room) (bombId : String) (oracle : List (Option PType)) :
    Room × List Ev × List String :=
  match alGet r.bombs bombId with
  | none => (r, [], [])
  | some bomb =>
      let bombs1 := alDelete r.bombs bombId
      let players1 := r.players.map (fun kp =>
        if kp.1 = bomb.owner then (kp.1, { kp.2 with bombCount := kp.2.bombCount - 1 })
        else kp)
      let areas := calculateExplosion bomb.x bomb.y bomb.power r.destructibleBlocks
      let players2 := damagePlayers areas players1
      let chain := chainIds bombId areas bombs1
      let des := destroyBlocks areas r.destructibleBlocks oracle
      let powerUps1 := des.2.2.foldl (fun m kv => alSet m kv.1 kv.2) r.powerUps
      let r1 : Room :=
        { r with players := players2, bombs := bombs1
                 powerUps := powerUps1, destructibleBlocks := des.1 }
      let evs := broadcastToRoom r1 "bombExploded"
      let win := checkWinCondition r1
      (win.1, evs ++ win.2, chain)

/-- GameRoom.collectPowerUp: reject when the power-up or player is absent or
the player is dead; otherwise apply the effect by type (no proximity test of
any kind appears in the source) and delete the power-up. -/
def collectPowerUp (r : Room) (playerId : Nat) (powerUpId : String) :
    Room × Bool :=
  match alGet r.powerUps powerUpId, alGet r.players playerId with
  | some pu, some p =>
      if p.isAlive then
        let p' :=
          match pu.type with
          | .speed => { p with speed := min (p.speed + 3 / 10) 2 }
          | .bombs => { p with bombCapacity := p.bombCapacity + 1, puBombs := p.puBombs + 1 }
          | .power => { p with bombPower := p.bombPower + 1, puPower := p.puPower + 1 }
          | .health => { p with health := min (p.health + 30) 100 }
        ({ r with players := alSet r.players playerId p'
                  powerUps := alDelete r.powerUps powerUpId }, true)
      else (r, false)
  | _, _ => (r, false)

/-! ## Handlers (server.js variant): the per-room gate on inbound intents -/

/-- playerMove handler body past the registry lookup: nothing happens unless
the room phase is playing; an accepted move is echoed to the other players. -/
def handlePlayerMove (r : Room) (playerId : Nat) (ux uy : Int) : Room × List Ev :=
  if r.gameState = .playing then
    let res := updatePlayer r playerId ux uy
    if res.2 then
      (res.1,
       (res.1.players.filter (fun kp => decide (kp.1 ≠ playerId))).map
         (fun kp => ⟨kp.2.socket, "playerMoved"⟩))
    else (res.1, [])
  else (r, [])

/-- placeBomb handler body past the registry lookup: gated on the playing
phase; an accepted bomb is broadcast and its fuse expiry scheduled. -/
def handlePlaceBomb (r : Room) (playerId : Nat) (x y : Int) (bombId : String) :
    Room × List Ev × List Sched :=
  if r.gameState = .playing then
    let res := placeBomb r playerId x y bombId
    match res.1 with
    | some bomb => (res.2, broadcastToRoom res.2 "bombPlaced", [.detonate bomb.id 3000])
    | none => (res.2, [], [])
  else (r, [], [])

/-- collectPowerUp handler body past the registry lookup: gated on the
playing phase; a successful collection is broadcast. -/
def handleCollectPowerUp (r : Room) (playerId : Nat) (powerUpId : String) :
    Room × List Ev :=
  if r.gameState = .playing then
    let res := collectPowerUp r playerId powerUpId
    if res.2 then (res.1, broadcastToRoom res.1 "powerUpCollected")
    else (res.1, [])
  else (r, [])

/-- The guarded auto-start body of the joinRoom handler's 2-second timeout:
startGame runs only when canStartGame still holds. -/
def autoStart (r : Room) : Room :=
  if canStartGame r then startGame r else r

/-- joinRoom handler of server.js: a socket already bound in playerSockets is
ignored outright (the duplicate-join guard); an unknown room id yields an
error emission; otherwise addPlayer, with the join events and, when the room
can start, the scheduled auto-start. -/
def handleJoinRoom (gameRooms : List (String × Room))
    (playerSockets : List (String × PInfo)) (sockId : String)
    (dataRoomId : String) (dataName : Option String) :
    List (String × Room) × List (String × PInfo) × List Ev × List Sched :=
  match alGet playerSockets sockId with
  | some _ => (gameRooms, playerSockets, [], [])
  | none =>
      match alGet gameRooms dataRoomId with
      | none => (gameRooms, playerSockets, [⟨sockId, "error"⟩], [])
      | some room =>
          let res := addPlayer room sockId dataName
          match res.1 with
          | some player =>
              let room' := res.2
              let evs :=
                ⟨sockId, "roomJoined"⟩ :: broadcastToRoom room' "playerJoined"
              let sched : List Sched :=
                if canStartGame room' then [.autoStart dataRoomId] else []
              (alSet gameRooms dataRoomId room',
               alSet playerSockets sockId ⟨dataRoomId, player.id⟩, evs, sched)
          | none => (gameRooms, playerSockets, [⟨sockId, "error"⟩], [])

/-! ## Op sequences and reachability

A reachable room state is one produced from a freshly constructed room by a
sequence of the mutating GameRoom operations above.  This over-approximates
the states the socket handlers can produce (the handlers add phase gates and
registry lookups in front of some of the operations), so an invariant proved
for every Op sequence holds in particular for every handler-reachable state,
while a state exhibited by a concrete Op sequence must still be checked
against the handlers to count as handler-reachable. -/

/-- One mutating GameRoom operation together with its inputs (oracle entries
stand for the Math.random coins of the corresponding source call). -/
inductive Op : Type
  | addPlayer (socketId : String) (nameData : Option String)
  | removePlayer (socketId : String)
  | startGame
  | updatePlayer (playerId : Nat) (ux uy : Int)
  | placeBomb (playerId : Nat) (x y : Int) (bombId : String)
  | explodeBomb (bombId : String) (oracle : List (Option PType))
  | collectPowerUp (playerId : Nat) (powerUpId : String)
  | checkWin

/-- Apply one operation to a room, keeping only the room state. -/
def applyOp (op : Op) (r : Room) : Room :=
  match op with
  | .addPlayer sock nm => (addPlayer r sock nm).2
  | .removePlayer sock => (removePlayer r sock).2
  | .startGame => startGame r
  | .updatePlayer pid ux uy => (updatePlayer r pid ux uy).1
  | .placeBomb pid x y bid => (placeBomb r pid x y bid).2
  | .explodeBomb bid oracle => (explodeBomb r bid oracle).1
  | .collectPowerUp pid puid => (collectPowerUp r pid puid).1
  | .checkWin => (checkWinCondition r).1

/-- Apply a sequence of operations left to right. -/
def applyOps (ops : List Op) (r : Room) : Room :=
  ops.foldl (fun r op => applyOp op r) r

/-- A room state reachable from some freshly constructed room by some
operation sequence. -/
def Reach (r : Room) : Prop :=
  ∃ roomId maxP oracle ops, r = applyOps ops (mkRoom roomId maxP oracle)

/-! ## The chain-reaction process

Pending detonations (fuse expiries and 50 ms chain delays) are modelled as a
work list of bomb ids; one step consumes the head, running explodeBomb on it
(a no-op when the bomb is already gone) and appending the chain detonations
it schedules.  The oracle stream supplies the power-up spawn coins of each
step. -/

/-- One step of the chain-reaction process. -/
def detonationStep (oracle : List (Option PType)) :
    Room × List String → Room × List String
  | (r, []) => (r, [])
  | (r, id :: rest) =>
      let res := explodeBomb r id oracle
      (res.1, rest ++ res.2.2)

/-- Run the chain-reaction process for the given number of steps. -/
def detonationRun (os : Nat → List (Option PType)) :
    Nat → Room × List String → Room × List String
  | 0, st => st
  | n + 1, st => detonationRun os n (detonationStep (os n) st)

/-- Every bomb entry's value carries its own key as its id field (placeBomb
stores the bomb under its id, so this holds in every reachable room). -/
def bombKeysOk (r : Room) : Prop := ∀ kb ∈ r.bombs, kb.2.id = kb.1

/-! ## README-variant definitions (namespace V2)

The listing embedded in src/README.md differs from src/server.js in the
pieces below: a transitioningPlayers table, rejoinTransitioningPlayer, a
joinRoom handler that resumes a matching transition record, and an addPlayer
whose default blast power is 5. -/

namespace V2

/-- A transition record of the transitioningPlayers table. -/
structure TransData : Type where
  roomId : String
  playerId : Nat
  playerName : String
  transitionStart : Nat
deriving DecidableEq, Repr

/-- The transition-record search of the README joinRoom handler: the first
entry for the requested room whose stored name equals the requested name or
whose stored slot equals the requested playerId (an absent playerId in the
request matches nothing, as the strict comparison against undefined fails). -/
def transFind (trans : List (String × TransData)) (dataRoomId : String)
    (dataName : String) (dataPlayerId : Option Nat) :
    Option (String × TransData) :=
  trans.find? (fun kv =>
    decide (kv.2.roomId = dataRoomId) &&
    (decide (kv.2.playerName = dataName) || decide (some kv.2.playerId = dataPlayerId)))

/-- The player search and socket rebind of rejoinTransitioningPlayer, over
the seat list: the first seat whose name and slot both match the record gets
its socket identity replaced; the rebound player is returned. -/
def rejoinAux (sockId : String) (td : TransData) :
    List (Nat × Player) → Option (List (Nat × Player) × Player)
  | [] => none
  | (pid, p) :: rest =>
      if p.name = td.playerName ∧ pid = td.playerId then
        let p' := { p with socket := sockId }
        some ((pid, p') :: rest, p')
      else
        match rejoinAux sockId td rest with
        | some res => some ((pid, p) :: res.1, res.2)
        | none => none

/-- GameRoom.rejoinTransitioningPlayer of the README variant. -/
def rejoinTransitioningPlayer (r : Room) (sockId : String) (td : TransData) :
    Option (Room × Player) :=
  match rejoinAux sockId td r.players with
  | some res => some ({ r with players := res.1 }, res.2)
  | none => none

/-- addPlayer of the README variant: identical to the server.js one except
that the default blast power is 5. -/
def addPlayer (r : Room) (socketId : String) (nameData : Option String) :
    Option Player × Room :=
  if r.maxPlayers ≤ r.players.length then (none, r)
  else
    let playerId := r.players.length + 1
    let spawn := spawnPositions.getD (playerId - 1) (0, 0)
    let player : Player :=
      { id := playerId
        socket := socketId
        name := nameData.getD ("Player " ++ toString playerId)
        x := spawn.1
        y := spawn.2
        health := 100
        isAlive := true
        bombCapacity := 1
        bombCount := 0
        bombPower := 5
        speed := 1
        puBombs := 0
        puPower := 0 }
    (some player, { r with players := alSet r.players playerId player })

/-- The new-join branch of the README joinRoom handler (reached when no
transition record matches, or the matched record's seat is gone): addPlayer,
the join events, the guarded auto-start, and the gameStateUpdate broadcast
when the game is already playing. -/
def newJoinPath (trans : List (String × TransData))
    (playerSockets : List (String × PInfo)) (room : Room) (sockId : String)
    (dataRoomId : String) (dataName : Option String) :
    Room × List (String × TransData) × List (String × PInfo) × List Ev × List Sched :=
  let res := addPlayer room sockId dataName
  match res.1 with
  | some player =>
      let room' := res.2
      let evs :=
        ⟨sockId, "roomJoined"⟩ :: broadcastToRoom room' "playerJoined"
          ++ (if room'.gameState = .playing then broadcastToRoom room' "gameStateUpdate" else [])
      let sched : List Sched :=
        if canStartGame room' then [.autoStart dataRoomId] else []
      (room', trans, alSet playerSockets sockId ⟨dataRoomId, player.id⟩, evs, sched)
  | none => (room, trans, playerSockets, [⟨sockId, "error"⟩], [])

/-- joinRoom handler of the README variant, past the room lookup: when a live
transition record for the room matches the credentials and its seat is still
present, the seat's socket is rebound, the record is deleted, roomJoined is
emitted with the reconnecting flag, no playerJoined broadcast happens, and,
when the game is mid-playing, gameStarted is emitted to the reconnecting
socket and a gameStateUpdate snapshot is broadcast to the whole room;
otherwise the new-join branch runs. -/
def handleJoinRoom (trans : List (String × TransData))
    (playerSockets : List (String × PInfo)) (room : Room) (sockId : String)
    (dataRoomId : String) (dataName : String) (dataPlayerId : Option Nat) :
    Room × List (String × TransData) × List (String × PInfo) × List Ev × List Sched :=
  match transFind trans dataRoomId dataName dataPlayerId with
  | some (oldSock, td) =>
      match rejoinTransitioningPlayer room sockId td with
      | some res =>
          let room' := res.1
          let player := res.2
          let trans' := alDelete trans oldSock
          let evs :=
            ⟨sockId, "roomJoined"⟩ ::
              ((if room'.gameState = .playing then [(⟨sockId, "gameStarted"⟩ : Ev)] else [])
                ++ (if room'.gameState = .playing then broadcastToRoom room' "gameStateUpdate" else []))
          (room', trans', alSet playerSockets sockId ⟨dataRoomId, player.id⟩, evs, [])
      | none => newJoinPath trans playerSockets room sockId dataRoomId (some dataName)
  | none => newJoinPath trans playerSockets room sockId dataRoomId (some dataName)

end V2

/-! ## Derived notions used by the statements -/

/-- The cell reached after j grid steps of 64 units from the origin along a
direction. -/
def dirCell (x y dx dy : Int) (j : Nat) : Int × Int :=
  (x + dx * 64 * (j : Int), y + dy * 64 * (j : Int))

/-- A cell within the arena bounds minus the 50-unit margin, the complement
of the outOfBounds test. -/
def inMargin (c : Int × Int) : Prop :=
  50 ≤ c.1 ∧ c.1 ≤ 1024 - 50 ∧ 50 ≤ c.2 ∧ c.2 ≤ 768 - 50

instance (c : Int × Int) : Decidable (inMargin c) := by
  unfold inMargin; infer_instance

/-- The blocked test applied to a cell pair. -/
def blockedAt (blocks : List Block) (c : Int × Int) : Bool :=
  isBlocked blocks c.1 c.2

/-- The ordering of the three phases along the forward direction
waiting, playing, finished. -/
def phaseIdx : GState → Nat
  | .waiting => 0
  | .playing => 1
  | .finished => 2

/-- The measure of the chain-reaction process: pending entries plus the
square of the live-bomb count; every step strictly decreases it. -/
def detMeasure (st : Room × List String) : Nat :=
  st.2.length + st.1.bombs.length * st.1.bombs.length

/-- The health bound the code actually maintains, on the raw health and alive
fields: health never exceeds 100, never drops past one killing blow below
zero, and an alive player's health is positive. -/
def healthOkH (health : Int) (alive : Bool) : Prop :=
  health ≤ 100 ∧ -25 < health ∧ (alive = true → 0 < health)

/-- The health bound for one player record. -/
def healthOk (p : Player) : Prop := healthOkH p.health p.isAlive

/-- The health bound for every seated player of a room. -/
def healthInv (r : Room) : Prop := ∀ kp ∈ r.players, healthOk kp.2

/-! ## Concrete scenario states used by counterexamples and witnesses -/

/-- Room reached by: A joins, B joins, A leaves, C joins.  The last join is
assigned slot players.size + 1 = 2, the slot already occupied by B. -/
def rC2 : Room := applyOps
  [ .addPlayer "sockA" (some "A"), .addPlayer "sockB" (some "B"),
    .removePlayer "sockA", .addPlayer "sockC" (some "C") ]
  (mkRoom "room1" 4 (fun _ _ => false))

/-- Room reached by: A and B join, the game starts, B places a bomb, B
disconnects, C joins (reusing slot 2), the bomb's fuse expires. -/
def rC6 : Room := applyOps
  [ .addPlayer "sockA" (some "A"), .addPlayer "sockB" (some "B"), .startGame,
    .placeBomb 2 960 64 "bombB", .removePlayer "sockB",
    .addPlayer "sockC" (some "C"), .explodeBomb "bombB" [] ]
  (mkRoom "room1" 4 (fun _ _ => false))

/-- Room reached by: A and B join, the game starts, A bombs B's cell three
times (health 100 to 25), A bombs the block at (740, 100) whose destruction
spawns a health power-up, B collects it (health 55), then A bombs B's cell
three more times: 55 to 30 to 5 to -20, the killing blow storing a negative
health. -/
def rC5 : Room := applyOps
  [ .addPlayer "sockA" (some "A"), .addPlayer "sockB" (some "B"), .startGame,
    .placeBomb 1 960 64 "b1", .explodeBomb "b1" [],
    .placeBomb 1 960 64 "b2", .explodeBomb "b2" [],
    .placeBomb 1 960 64 "b3", .explodeBomb "b3" [],
    .placeBomb 1 740 100 "bH", .explodeBomb "bH" [some .health],
    .collectPowerUp 2 "powerup_block_740_100",
    .placeBomb 1 960 64 "b4", .explodeBomb "b4" [],
    .placeBomb 1 960 64 "b5", .explodeBomb "b5" [],
    .placeBomb 1 960 64 "b6", .explodeBomb "b6" [] ]
  (mkRoom "room1" 4 (fun x y => decide (x = 740) && decide (y = 100)))

/-- Room reached by: A and B join, the game starts, A bombs B's cell three
times (health 25), B places a bomb at the arena centre, A's fourth bomb kills
B, finishing the game while B's bomb is still pending. -/
def rC4 : Room := applyOps
  [ .addPlayer "sockA" (some "A"), .addPlayer "sockB" (some "B"), .startGame,
    .placeBomb 1 960 64 "b1", .explodeBomb "b1" [],
    .placeBomb 1 960 64 "b2", .explodeBomb "b2" [],
    .placeBomb 1 960 64 "b3", .explodeBomb "b3" [],
    .placeBomb 2 512 384 "pend",
    .placeBomb 1 960 64 "b4", .explodeBomb "b4" [] ]
  (mkRoom "room1" 4 (fun _ _ => false))

/-- Room reached by: A and B join, the game starts, A moves to (100, 100). -/
def rC7 : Room := applyOps
  [ .addPlayer "sockA" (some "A"), .addPlayer "sockB" (some "B"), .startGame,
    .updatePlayer 1 100 100 ]
  (mkRoom "room1" 4 (fun _ _ => false))

/-- A mid-playing room of the README variant: A on sockA, B formerly on
sockOldB. -/
def roomC3 : Room :=
  { (applyOps [ .addPlayer "sockA" (some "A"), .addPlayer "sockOldB" (some "B"),
      .startGame ] (mkRoom "roomX" 4 (fun _ _ => false))) with roomId := "roomX" }

/-- The transition record left when sockOldB dropped after the game started. -/
def tdC3 : V2.TransData := ⟨"roomX", 2, "B", 0⟩

/-- The transitioningPlayers table holding the record for sockOldB. -/
def transC3 : List (String × V2.TransData) := [("sockOldB", tdC3)]

/-- The rebound room and player produced by rejoinTransitioningPlayer for the
reconnecting socket sockNewB (the fallback pair is never taken). -/
def resC3 : Room × Player :=
  (V2.rejoinTransitioningPlayer roomC3 "sockNewB" tdC3).getD
    (roomC3, ⟨0, "", "", 0, 0, 0, false, 0, 0, 0, 1, 0, 0⟩)

/-- A playing room holding two bombs 64 units apart, both with pending
detonations: detonating one chains to the other. -/
def rW8 : Room :=
  { mkRoom "w8" 4 (fun _ _ => false) with
      gameState := .playing
      bombs := [("bX", ⟨"bX", 512, 384, 1, 3, 3000⟩),
                ("bY", ⟨"bY", 512, 448, 1, 3, 3000⟩)] }

/-- A waiting room with one player at the top-left spawn and one health
power-up across the arena at (900, 700): collection ignores the distance. -/
def rC9 : Room :=
  { mkRoom "w9" 4 (fun _ _ => false) with
      players := [(1, ⟨1, "sockA", "A", 64, 64, 40, true, 1, 0, 3, 1, 0, 0⟩)]
      powerUps := [("puFar", ⟨"puFar", .health, 900, 700⟩)] }

/-- A finished room used to witness the finished-phase handler gate. -/
def rC4w : Room :=
  { mkRoom "w4" 4 (fun _ _ => false) with gameState := .finished }

/-- A reachable one-player room used to witness the health invariant. -/
def rC5w : Room :=
  applyOps [ .addPlayer "sockA" (some "A") ] (mkRoom "w5" 4 (fun _ _ => false))

/-- The seated player of the witness room rC5w. -/
def pC5w : Player :=
  (alGet rC5w.players 1).getD ⟨0, "", "", 0, 0, 0, false, 0, 0, 0, 1, 0, 0⟩

/-! ## Association-list lemmas -/

theorem alGet_mem {α β : Type} [DecidableEq α] {m : List (α × β)} {k : α} {v : β}
    (h : alGet m k = some v) : (k, v) ∈ m := by
  induction m with
  | nil => simp [alGet] at h
  | cons kv rest ih =>
      obtain ⟨k0, v0⟩ := kv
      by_cases hk : k0 = k
      · subst hk
        simp only [alGet, if_pos] at h
        cases h
        exact List.mem_cons_self _ _
      · simp only [alGet, hk, if_neg, not_false_iff] at h
        exact List.mem_cons_of_mem _ (ih h)

theorem alGet_none_keys {α β : Type} [DecidableEq α] {m : List (α × β)} {k : α}
    (h : alGet m k = none) : ∀ kv ∈ m, kv.1 ≠ k := by
  induction m with
  | nil => intro kv hkv; simp at hkv
  | cons kv0 rest ih =>
      intro kv hkv
      by_cases hk : kv0.1 = k
      · simp [alGet, hk] at h
      · rcases List.mem_cons.mp hkv with h1 | h1
        · subst h1; exact hk
        · simp only [alGet, hk, if_neg, not_false_iff] at h
          exact ih h kv h1

theorem mem_alSet {α β : Type} [DecidableEq α] {m : List (α × β)} {k : α} {v : β}
    {kv : α × β} (h : kv ∈ alSet m k v) : kv ∈ m ∨ kv = (k, v) := by
  induction m with
  | nil => simp [alSet] at h; right; exact h
  | cons kv0 rest ih =>
      by_cases hk : kv0.1 = k
      · simp only [alSet, hk, if_pos] at h
        rcases List.mem_cons.mp h with h1 | h1
        · right; exact h1
        · left; exact List.mem_cons_of_mem _ h1
      · simp only [alSet, hk, if_neg, not_false_iff] at h
        rcases List.mem_cons.mp h with h1 | h1
        · left; exact h1 ▸ List.mem_cons_self _ _
        · rcases ih h1 with h2 | h2
          · left; exact List.mem_cons_of_mem _ h2
          · right; exact h2

theorem alGet_alSet_self {α β : Type} [DecidableEq α] (m : List (α × β)) (k : α)
    (v : β) : alGet (alSet m k v) k = some v := by
  induction m with
  | nil => simp [alSet, alGet]
  | cons kv0 rest ih =>
      by_cases hk : kv0.1 = k
      · simp [alSet, alGet, hk]
      · simp [alSet, alGet, hk, ih]

theorem alGet_alSet_ne {α β : Type} [DecidableEq α] (m : List (α × β)) (k k' : α)
    (v : β) (h : k' ≠ k) : alGet (alSet m k v) k' = alGet m k' := by
  have hne : ¬ k = k' := fun hh => h hh.symm
  induction m with
  | nil => simp [alSet, alGet, hne]
  | cons kv0 rest ih =>
      obtain ⟨k0, v0⟩ := kv0
      by_cases hk : k0 = k
      · subst hk
        simp [alSet, alGet, hne]
      · by_cases hk' : k0 = k'
        · simp [alSet, alGet, hk, hk', h]
        · simp [alSet, alGet, hk, hk', ih]

theorem mem_alDelete {α β : Type} [DecidableEq α] {m : List (α × β)} {k : α}
    {kv : α × β} (h : kv ∈ alDelete m k) : kv ∈ m ∧ kv.1 ≠ k := by
  unfold alDelete at h
  have h1 := List.mem_filter.mp h
  exact ⟨h1.1, by simpa using h1.2⟩

theorem alGet_alDelete_self {α β : Type} [DecidableEq α] (m : List (α × β))
    (k : α) : alGet (alDelete m k) k = none := by
  induction m with
  | nil => rfl
  | cons kv0 rest ih =>
      by_cases hk : kv0.1 = k
      · simpa [alDelete, alGet, hk] using ih
      · simpa [alDelete, alGet, hk] using ih

theorem length_alDelete_le {α β : Type} [DecidableEq α] (m : List (α × β))
    (k : α) : (alDelete m k).length ≤ m.length :=
  List.length_filter_le _ m

theorem length_alDelete_lt {α β : Type} [DecidableEq α] {m : List (α × β)}
    {k : α} {v : β} (h : alGet m k = some v) :
    (alDelete m k).length < m.length := by
  unfold alDelete
  rw [List.length_filter_lt_length_iff_exists]
  exact ⟨(k, v), alGet_mem h, by simp⟩

/-! ## Explosion engine characterization (claim C1) -/

theorem outOfBounds_false_iff (cx cy : Int) :
    outOfBounds cx cy = false ↔ inMargin (cx, cy) := by
  unfold outOfBounds inMargin
  simp only [Bool.or_eq_false_iff, decide_eq_false_iff_not]
  constructor
  · rintro ⟨⟨⟨h1, h2⟩, h3⟩, h4⟩; refine ⟨by omega, by omega, by omega, by omega⟩
  · rintro ⟨h1, h2, h3, h4⟩; refine ⟨⟨⟨by omega, by omega⟩, by omega⟩, by omega⟩

theorem mem_explodeDirAux {x y dx dy : Int} {blocks : List Block} :
    ∀ (fuel i : Nat) (c : Int × Int),
      c ∈ explodeDirAux x y dx dy blocks i fuel → inMargin c := by
  intro fuel
  induction fuel with
  | zero => intro i c hc; simp [explodeDirAux] at hc
  | succ fuel ih =>
      intro i c hc
      simp only [explodeDirAux] at hc
      by_cases hob : outOfBounds (x + dx * 64 * (i : Int)) (y + dy * 64 * (i : Int)) = true
      · simp [hob] at hc
      · have hob' : outOfBounds (x + dx * 64 * (i : Int)) (y + dy * 64 * (i : Int)) = false :=
          Bool.eq_false_iff.mpr hob
        have hmar := (outOfBounds_false_iff _ _).mp hob'
        by_cases hbl : isBlocked blocks (x + dx * 64 * (i : Int)) (y + dy * 64 * (i : Int)) = true
        · simp only [hob', Bool.false_eq_true, if_false, hbl, if_true,
            List.mem_singleton] at hc
          exact hc ▸ hmar
        · simp only [hob', Bool.false_eq_true, if_false, hbl, if_true,
            List.mem_cons] at hc
          rcases hc with hc | hc
          · exact hc ▸ hmar
          · exact ih (i + 1) c hc

theorem explodeDirAux_char (x y dx dy : Int) (blocks : List Block) :
    ∀ (fuel i : Nat), ∃ n, n ≤ fuel ∧
      explodeDirAux x y dx dy blocks i fuel
        = (List.range n).map (fun k => dirCell x y dx dy (i + k))
      ∧ (∀ k < n, inMargin (dirCell x y dx dy (i + k)))
      ∧ (∀ k, k + 1 < n → blockedAt blocks (dirCell x y dx dy (i + k)) = false)
      ∧ (n < fuel →
          (∃ m, n = m + 1 ∧ blockedAt blocks (dirCell x y dx dy (i + m)) = true)
          ∨ ¬ inMargin (dirCell x y dx dy (i + n))) := by
  intro fuel
  induction fuel with
  | zero =>
      intro i
      refine ⟨0, le_refl 0, rfl, ?_, ?_, ?_⟩
      · intro k hk; omega
      · intro k hk; omega
      · intro h; omega
  | succ fuel ih =>
      intro i
      have hcell : dirCell x y dx dy (i + 0) =
          (x + dx * 64 * (i : Int), y + dy * 64 * (i : Int)) := rfl
      by_cases hob : outOfBounds (x + dx * 64 * (i : Int)) (y + dy * 64 * (i : Int)) = true
      · refine ⟨0, Nat.zero_le _, ?_, ?_, ?_, ?_⟩
        · simp [explodeDirAux, hob]
        · intro k hk; omega
        · intro k hk; omega
        · intro _
          right
          rw [hcell]
          intro hmar
          rw [← outOfBounds_false_iff] at hmar
          rw [hmar] at hob
          exact Bool.false_ne_true hob
      · have hob' : outOfBounds (x + dx * 64 * (i : Int)) (y + dy * 64 * (i : Int)) = false :=
          Bool.eq_false_iff.mpr hob
        have hmar := (outOfBounds_false_iff _ _).mp hob'
        by_cases hbl : isBlocked blocks (x + dx * 64 * (i : Int)) (y + dy * 64 * (i : Int)) = true
        · refine ⟨1, by omega, ?_, ?_, ?_, ?_⟩
          · have hstep : explodeDirAux x y dx dy blocks i (fuel + 1)
                = [(x + dx * 64 * (i : Int), y + dy * 64 * (i : Int))] := by
              simp [explodeDirAux, hob', hbl]
            rw [hstep]
            rfl
          · intro k hk
            have hk0 : k = 0 := by omega
            rw [hk0, hcell]
            exact hmar
          · intro k hk; omega
          · intro _
            left
            refine ⟨0, rfl, ?_⟩
            rw [blockedAt, hcell]
            exact hbl
        · obtain ⟨n, hn, heq, hmarall, hblk, hstop⟩ := ih (i + 1)
          have hshift : ∀ k : Nat, dirCell x y dx dy (i + (k + 1))
              = dirCell x y dx dy (i + 1 + k) := by
            intro k
            have hik : i + (k + 1) = i + 1 + k := by omega
            rw [hik]
          refine ⟨n + 1, by omega, ?_, ?_, ?_, ?_⟩
          · have hstep : explodeDirAux x y dx dy blocks i (fuel + 1)
                = (x + dx * 64 * (i : Int), y + dy * 64 * (i : Int))
                  :: explodeDirAux x y dx dy blocks (i + 1) fuel := by
              simp [explodeDirAux, hob', hbl]
            rw [hstep, heq, List.range_succ_eq_map, List.map_cons, List.map_map]
            refine congrArg₂ List.cons hcell.symm ?_
            refine List.map_congr_left ?_
            intro k _
            have hcomp : ((fun k => dirCell x y dx dy (i + k)) ∘ Nat.succ) k
                = dirCell x y dx dy (i + (k + 1)) := rfl
            rw [hcomp, hshift k]
          · intro k hk
            cases k with
            | zero => rw [hcell]; exact hmar
            | succ k' =>
                rw [hshift k']
                exact hmarall k' (by omega)
          · intro k hk
            cases k with
            | zero =>
                rw [blockedAt, hcell]
                exact Bool.eq_false_iff.mpr hbl
            | succ k' =>
                rw [hshift k']
                exact hblk k' (by omega)
          · intro hlt
            rcases hstop (by omega) with ⟨m, hm, hb⟩ | hnm
            · left
              refine ⟨m + 1, by omega, ?_⟩
              rw [hshift m]
              exact hb
            · right
              rw [hshift n]
              exact hnm

/-- C1 (corrected): for an origin outside the arena margin (here the snapped
bomb cell (1024, 64), reachable from a player standing at the clamped edge
x = 992), calculateExplosion still returns the origin cell, so the claim's
conjunct that no returned cell lies outside the arena margin fails. -/
theorem C1_counterexample :
    ((1024 : Int), (64 : Int)) ∈ calculateExplosion 1024 64 3 []
    ∧ ¬ inMargin ((1024 : Int), (64 : Int)) := by
  constructor
  · exact List.mem_cons_self _ _
  · decide

/-- C1 (amended): calculateExplosion always returns the origin cell first,
even when the origin itself lies outside the arena margin; every other
returned cell lies within the margin; and along each of the four directions
the returned cells are the contiguous run of steps 1..n from the origin for
some n at most the blast power, every cell of the run lies in the margin,
only the last cell of the run can hold a destructible block (the run stops at
the first blocking cell, inclusive), and a run shorter than the power ends
either at such a blocking cell or just before a cell outside the margin. -/
theorem C1_amended (x y : Int) (power : Nat) (blocks : List Block) :
    (x, y) ∈ calculateExplosion x y power blocks
    ∧ (∀ c ∈ calculateExplosion x y power blocks, c = (x, y) ∨ inMargin c)
    ∧ (∀ d ∈ explosionDirections, ∃ n, n ≤ power ∧
        explodeDirAux x y d.1 d.2 blocks 1 power
          = (List.range n).map (fun k => dirCell x y d.1 d.2 (1 + k))
        ∧ (∀ k < n, inMargin (dirCell x y d.1 d.2 (1 + k)))
        ∧ (∀ k, k + 1 < n → blockedAt blocks (dirCell x y d.1 d.2 (1 + k)) = false)
        ∧ (n < power →
            (∃ m, n = m + 1 ∧ blockedAt blocks (dirCell x y d.1 d.2 (1 + m)) = true)
            ∨ ¬ inMargin (dirCell x y d.1 d.2 (1 + n)))) := by
  refine ⟨List.mem_cons_self _ _, ?_, ?_⟩
  · intro c hc
    rcases List.mem_cons.mp hc with hc | hc
    · left; exact hc
    · right
      rcases List.mem_flatMap.mp hc with ⟨d, _, hcd⟩
      exact mem_explodeDirAux power 1 c hcd
  · intro d _
    exact explodeDirAux_char x y d.1 d.2 blocks power 1

/-! ## Phase bookkeeping lemmas -/

theorem phaseIdx_le_two (g : GState) : phaseIdx g ≤ 2 := by
  cases g <;> simp [phaseIdx]

theorem checkWin_players (r : Room) : (checkWinCondition r).1.players = r.players := by
  unfold checkWinCondition
  dsimp only
  split <;> rfl

theorem checkWin_bombs (r : Room) : (checkWinCondition r).1.bombs = r.bombs := by
  unfold checkWinCondition
  dsimp only
  split <;> rfl

theorem checkWin_phase (r : Room) :
    phaseIdx r.gameState ≤ phaseIdx (checkWinCondition r).1.gameState := by
  unfold checkWinCondition
  dsimp only
  split
  · exact phaseIdx_le_two _
  · exact le_refl _

theorem checkWin_phase' {g : GState} (r : Room) (h : r.gameState = g) :
    phaseIdx g ≤ phaseIdx (checkWinCondition r).1.gameState := by
  rw [← h]
  exact checkWin_phase r

theorem explodeBomb_none {r : Room} {bid : String} {o : List (Option PType)}
    (h : alGet r.bombs bid = none) : explodeBomb r bid o = (r, [], []) := by
  unfold explodeBomb
  rw [h]

theorem explodeBomb_phase (r : Room) (bid : String) (o : List (Option PType)) :
    phaseIdx r.gameState ≤ phaseIdx (explodeBomb r bid o).1.gameState := by
  unfold explodeBomb
  cases h : alGet r.bombs bid with
  | none => exact le_refl _
  | some bomb =>
      dsimp only
      exact checkWin_phase' _ rfl

theorem addPlayer_gameState (r : Room) (s : String) (n : Option String) :
    (addPlayer r s n).2.gameState = r.gameState := by
  unfold addPlayer
  split <;> rfl

theorem removePlayer_gameState (r : Room) (s : String) :
    (removePlayer r s).2.gameState = r.gameState := by
  unfold removePlayer
  split <;> rfl

theorem updatePlayer_gameState (r : Room) (pid : Nat) (ux uy : Int) :
    (updatePlayer r pid ux uy).1.gameState = r.gameState := by
  unfold updatePlayer
  split
  · rfl
  · split <;> rfl

theorem placeBomb_gameState (r : Room) (pid : Nat) (x y : Int) (bid : String) :
    (placeBomb r pid x y bid).2.gameState = r.gameState := by
  unfold placeBomb
  dsimp only
  split
  · rfl
  · split
    · rfl
    · split <;> rfl

theorem collectPowerUp_gameState (r : Room) (pid : Nat) (puid : String) :
    (collectPowerUp r pid puid).1.gameState = r.gameState := by
  unfold collectPowerUp
  dsimp only
  split
  · split
    · split <;> rfl
    · rfl
  · rfl

theorem handlePlayerMove_gameState (r : Room) (pid : Nat) (ux uy : Int) :
    (handlePlayerMove r pid ux uy).1.gameState = r.gameState := by
  unfold handlePlayerMove
  dsimp only
  split
  · split <;> exact updatePlayer_gameState r pid ux uy
  · rfl

theorem handlePlaceBomb_gameState (r : Room) (pid : Nat) (x y : Int) (bid : String) :
    (handlePlaceBomb r pid x y bid).1.gameState = r.gameState := by
  unfold handlePlaceBomb
  dsimp only
  split
  · split <;> exact placeBomb_gameState r pid x y bid
  · rfl

theorem handleCollectPowerUp_gameState (r : Room) (pid : Nat) (puid : String) :
    (handleCollectPowerUp r pid puid).1.gameState = r.gameState := by
  unfold handleCollectPowerUp
  dsimp only
  split
  · split <;> exact collectPowerUp_gameState r pid puid
  · rfl

theorem canStartGame_waiting {r : Room} (h : canStartGame r = true) :
    r.gameState = .waiting := by
  unfold canStartGame at h
  rw [Bool.and_eq_true] at h
  exact of_decide_eq_true h.2

theorem autoStart_phase (r : Room) :
    phaseIdx r.gameState ≤ phaseIdx (autoStart r).gameState := by
  unfold autoStart
  split
  · next h =>
      rw [canStartGame_waiting h]
      exact Nat.zero_le _
  · exact le_refl _

/-! ## Claim C4: the finished phase -/

/-- C4 (corrected): rC4 is a room reached through the handlers whose phase is
finished while a bomb placed before the win is still pending; its fuse expiry
is not gated on the phase: it empties the bomb map and emits further events,
so the claim that a pending deferred action leaves a finished room unchanged
fails. -/
theorem C4_counterexample :
    rC4.gameState = .finished
    ∧ rC4.bombs ≠ []
    ∧ (explodeBomb rC4 "pend" []).1.bombs = []
    ∧ (explodeBomb rC4 "pend" []).2.1 ≠ [] := by
  refine ⟨by decide, by decide, by decide, by decide⟩

/-- C4 (amended): once a room's phase is finished, every intent routed
through the handlers (playerMove, placeBomb, collectPowerUp) leaves the room
unchanged and emits nothing, and the phase index only moves forward under
every room operation, the guarded auto-start, the win check and every
detonation; a pending bomb fuse expiry scheduled before the phase change is
however not gated on the phase and still mutates the room when it fires. -/
theorem C4_amended (r : Room) (h : r.gameState = .finished) :
    (∀ pid ux uy, handlePlayerMove r pid ux uy = (r, []))
    ∧ (∀ pid x y bid, handlePlaceBomb r pid x y bid = (r, [], []))
    ∧ (∀ pid puid, handleCollectPowerUp r pid puid = (r, []))
    ∧ (∀ r2 : Room,
        (∀ s n, phaseIdx r2.gameState ≤ phaseIdx (addPlayer r2 s n).2.gameState)
        ∧ (∀ s, phaseIdx r2.gameState ≤ phaseIdx (removePlayer r2 s).2.gameState)
        ∧ (∀ pid ux uy,
            phaseIdx r2.gameState ≤ phaseIdx (handlePlayerMove r2 pid ux uy).1.gameState)
        ∧ (∀ pid x y bid,
            phaseIdx r2.gameState ≤ phaseIdx (handlePlaceBomb r2 pid x y bid).1.gameState)
        ∧ (∀ pid puid,
            phaseIdx r2.gameState ≤ phaseIdx (handleCollectPowerUp r2 pid puid).1.gameState)
        ∧ (∀ bid o, phaseIdx r2.gameState ≤ phaseIdx (explodeBomb r2 bid o).1.gameState)
        ∧ phaseIdx r2.gameState ≤ phaseIdx (autoStart r2).gameState
        ∧ phaseIdx r2.gameState ≤ phaseIdx (checkWinCondition r2).1.gameState) := by
  refine ⟨?_, ?_, ?_, ?_⟩
  · intro pid ux uy
    unfold handlePlayerMove
    rw [h]
    rfl
  · intro pid x y bid
    unfold handlePlaceBomb
    rw [h]
    rfl
  · intro pid puid
    unfold handleCollectPowerUp
    rw [h]
    rfl
  · intro r2
    refine ⟨?_, ?_, ?_, ?_, ?_, ?_, autoStart_phase r2, checkWin_phase r2⟩
    · intro s n; rw [addPlayer_gameState]
    · intro s; rw [removePlayer_gameState]
    · intro pid ux uy; rw [handlePlayerMove_gameState]
    · intro pid x y bid; rw [handlePlaceBomb_gameState]
    · intro pid puid; rw [handleCollectPowerUp_gameState]
    · intro bid o; exact explodeBomb_phase r2 bid o

/-- C4 witness: the amended theorem applied to a concrete finished room and a
concrete move intent, which changes nothing and emits nothing. -/
theorem C4_witness : handlePlayerMove rC4w 1 500 500 = (rC4w, []) := by
  exact (C4_amended rC4w rfl).1 1 500 500

/-! ## Claim C2: slot assignment -/

/-- C2 (code_bug evaluation): after the handler-reachable sequence join A,
join B, leave A, join C, the room holds a single seat: slot 2, the slot B was
occupying, now holds C.  The join computed its slot as players.size + 1 = 2
and Map.set overwrote B, displacing an existing player, against both the spec
and the intent of the reconnection logic. -/
theorem C2_code_bug_eval :
    Reach rC2
    ∧ rC2.players.length = 1
    ∧ (alGet rC2.players 2).map Player.socket = some "sockC"
    ∧ rC2.players.all (fun kp => decide (kp.2.socket ≠ "sockB")) = true := by
  refine ⟨⟨"room1", 4, _, _, rfl⟩, by decide, by decide, by decide⟩

/-! ## Claim C6: the owner decrement -/

/-- C6 (code_bug evaluation): after the handler-reachable sequence where B
places a bomb, leaves, C joins into the reused slot 2, and the bomb's fuse
expires, explodeBomb runs the unfloored decrement owner.bombCount-- on C and
stores -1, violating the floor-at-zero behaviour the claim (and the
repository's own README listing, which uses Math.max(0, count - 1)) states. -/
theorem C6_code_bug_eval :
    Reach rC6 ∧ (alGet rC6.players 2).map Player.bombCount = some (-1) := by
  exact ⟨⟨"room1", 4, _, _, rfl⟩, by decide⟩

/-! ## Claim C7: movement clamping -/

/-- C7 (corrected): a Move intent with target (0, 0) for an alive player at
(100, 100) is accepted but leaves the position at (100, 100), because the
source evaluates updateData.x || player.x and 0 is falsy in JavaScript; the
claim's clamped target would be (32, 32). -/
theorem C7_counterexample :
    (updatePlayer rC7 1 0 0).2 = true
    ∧ (alGet (updatePlayer rC7 1 0 0).1.players 1).map (fun p => (p.x, p.y))
        = some (100, 100)
    ∧ ((100 : Int), (100 : Int)) ≠ (clampI 32 (1024 - 32) 0, clampI 32 (768 - 32) 0) := by
  refine ⟨by decide, by decide, by decide⟩

/-- C7 (amended): a Move intent with an existing, alive player is accepted;
each target coordinate first passes through the JavaScript default pattern
target || current (so a coordinate equal to 0 keeps the current coordinate)
and is then clamped to the margins [32, 1024-32] and [32, 768-32]; every
other slot is untouched; a Move against an absent or dead slot is rejected
and the room is unchanged. -/
theorem C7_amended (r : Room) (pid : Nat) (ux uy : Int) :
    (∀ p, alGet r.players pid = some p → p.isAlive = true →
      (updatePlayer r pid ux uy).2 = true
      ∧ alGet (updatePlayer r pid ux uy).1.players pid
          = some { p with x := clampI 32 (1024 - 32) (jsOr ux p.x),
                          y := clampI 32 (768 - 32) (jsOr uy p.y) }
      ∧ ∀ pid2, pid2 ≠ pid →
          alGet (updatePlayer r pid ux uy).1.players pid2 = alGet r.players pid2)
    ∧ ((∀ p, alGet r.players pid = some p → p.isAlive = false) →
      updatePlayer r pid ux uy = (r, false)) := by
  constructor
  · intro p hp halive
    unfold updatePlayer
    rw [hp]
    simp only [halive, if_true]
    exact ⟨trivial, alGet_alSet_self _ _ _, fun pid2 hne => alGet_alSet_ne _ _ _ _ hne⟩
  · intro hdead
    unfold updatePlayer
    cases hp : alGet r.players pid with
    | none => rfl
    | some p => simp [hdead p hp]

/-! ## Claim C9: power-up collection ignores distance -/

/-- C9 (confirmed): for any alive, present player and any present power-up,
collection succeeds and applies the effect by type; no hypothesis relates the
player's position to the power-up's position, and the player's position is
untouched, so collection is accepted at any distance. -/
theorem C9_confirmed (r : Room) (pid : Nat) (puid : String) (p : Player)
    (pu : PowerUp) (hp : alGet r.players pid = some p) (halive : p.isAlive = true)
    (hpu : alGet r.powerUps puid = some pu) :
    (collectPowerUp r pid puid).2 = true
    ∧ alGet (collectPowerUp r pid puid).1.powerUps puid = none
    ∧ ∃ p', alGet (collectPowerUp r pid puid).1.players pid = some p'
        ∧ p'.x = p.x ∧ p'.y = p.y
        ∧ (pu.type = .health → p'.health = min (p.health + 30) 100)
        ∧ (pu.type = .bombs → p'.bombCapacity = p.bombCapacity + 1)
        ∧ (pu.type = .power → p'.bombPower = p.bombPower + 1)
        ∧ (pu.type = .speed → p'.speed = min (p.speed + 3 / 10) 2) := by
  unfold collectPowerUp
  simp only [hp, hpu, halive, if_true]
  cases hty : pu.type <;>
  · dsimp only
    refine ⟨trivial, alGet_alDelete_self _ _, _, alGet_alSet_self _ _ _, rfl, rfl,
      ?_, ?_, ?_, ?_⟩ <;>
    · intro hcon
      first
      | rfl
      | cases hcon

/-- C9 witness: a concrete alive player at the top-left spawn collecting a
health power-up across the arena at (900, 700). -/
theorem C9_witness :
    (collectPowerUp rC9 1 "puFar").2 = true := by
  exact (C9_confirmed rC9 1 "puFar"
    ⟨1, "sockA", "A", 64, 64, 40, true, 1, 0, 3, 1, 0, 0⟩
    ⟨"puFar", .health, 900, 700⟩ rfl rfl rfl).1

/-! ## Claim C10: the duplicate-join guard -/

/-- C10 (confirmed): a joinRoom request from a socket already bound in the
playerSockets table returns with no room change, no binding change, no
emission and no scheduled action. -/
theorem C10_confirmed (gameRooms : List (String × Room))
    (ps : List (String × PInfo)) (sockId dataRoomId : String)
    (dataName : Option String) (info : PInfo)
    (h : alGet ps sockId = some info) :
    handleJoinRoom gameRooms ps sockId dataRoomId dataName
      = (gameRooms, ps, [], []) := by
  unfold handleJoinRoom
  rw [h]

/-- C10 witness: a concrete socket already bound to a room. -/
theorem C10_witness :
    handleJoinRoom [] [("s1", ⟨"r1", 1⟩)] "s1" "r1" none
      = ([], [("s1", ⟨"r1", 1⟩)], [], []) := by
  exact C10_confirmed [] [("s1", ⟨"r1", 1⟩)] "s1" "r1" none ⟨"r1", 1⟩ rfl

/-! ## Claim C5: the health bound -/

theorem healthOkH_damage {h : Int} {a : Bool} (hp : healthOkH h a) (ha : a = true) :
    healthOkH (h - 25) (if h - 25 ≤ 0 then false else a) := by
  obtain ⟨h1, h2, h3⟩ := hp
  have h0 : 0 < h := h3 ha
  refine ⟨by omega, by omega, ?_⟩
  intro hb
  by_cases hle : h - 25 ≤ 0
  · rw [if_pos hle] at hb
    exact absurd hb (by simp)
  · omega

theorem healthOkH_heal {h : Int} {a : Bool} (hp : healthOkH h a) (ha : a = true) :
    healthOkH (min (h + 30) 100) a := by
  obtain ⟨h1, h2, h3⟩ := hp
  have h0 : 0 < h := h3 ha
  refine ⟨?_, ?_, fun _ => ?_⟩ <;> omega

theorem healthInv_damagePlayers {areas : List (Int × Int)}
    {ps : List (Nat × Player)} (h : ∀ kp ∈ ps, healthOk kp.2) :
    ∀ kp ∈ damagePlayers areas ps, healthOk kp.2 := by
  intro kp hkp
  unfold damagePlayers at hkp
  rcases List.mem_map.mp hkp with ⟨kq, hmem, heq⟩
  subst heq
  dsimp only
  split
  · next hcond =>
      rw [Bool.and_eq_true] at hcond
      exact healthOkH_damage (h kq hmem) hcond.1
  · exact h kq hmem

theorem healthInv_ownerDec {owner : Nat} {ps : List (Nat × Player)}
    (h : ∀ kp ∈ ps, healthOk kp.2) :
    ∀ kp ∈ ps.map (fun kp =>
        if kp.1 = owner then (kp.1, { kp.2 with bombCount := kp.2.bombCount - 1 })
        else kp),
      healthOk kp.2 := by
  intro kp hkp
  rcases List.mem_map.mp hkp with ⟨kq, hmem, heq⟩
  subst heq
  dsimp only
  split
  · exact h kq hmem
  · exact h kq hmem

theorem explodeBomb_players_inv {r : Room} {bid : String}
    {o : List (Option PType)} (h : healthInv r) :
    healthInv (explodeBomb r bid o).1 := by
  unfold explodeBomb
  cases hb : alGet r.bombs bid with
  | none => exact h
  | some bomb =>
      dsimp only
      intro kp hkp
      rw [checkWin_players] at hkp
      exact healthInv_damagePlayers (healthInv_ownerDec h) kp hkp

theorem healthInv_applyOp (op : Op) (r : Room) (h : healthInv r) :
    healthInv (applyOp op r) := by
  cases op with
  | addPlayer s n =>
      show healthInv (addPlayer r s n).2
      unfold addPlayer
      dsimp only
      split
      · exact h
      · intro kp hkp
        rcases mem_alSet hkp with hk | hk
        · exact h kp hk
        · rw [hk]
          exact ⟨by norm_num, by norm_num, fun _ => by norm_num⟩
  | removePlayer s =>
      show healthInv (removePlayer r s).2
      unfold removePlayer
      split
      · exact h
      · intro kp hkp
        exact h kp (mem_alDelete hkp).1
  | startGame => exact h
  | updatePlayer pid ux uy =>
      show healthInv (updatePlayer r pid ux uy).1
      unfold updatePlayer
      cases hp : alGet r.players pid with
      | none => exact h
      | some p =>
          dsimp only
          split
          · intro kp hkp
            rcases mem_alSet hkp with hk | hk
            · exact h kp hk
            · rw [hk]
              exact h (pid, p) (alGet_mem hp)
          · exact h
  | placeBomb pid x y bid =>
      show healthInv (placeBomb r pid x y bid).2
      unfold placeBomb
      cases hp : alGet r.players pid with
      | none => exact h
      | some p =>
          dsimp only
          split
          · exact h
          · split
            · exact h
            · intro kp hkp
              rcases mem_alSet hkp with hk | hk
              · exact h kp hk
              · rw [hk]
                exact h (pid, p) (alGet_mem hp)
  | explodeBomb bid o => exact explodeBomb_players_inv h
  | collectPowerUp pid puid =>
      show healthInv (collectPowerUp r pid puid).1
      unfold collectPowerUp
      cases hpu : alGet r.powerUps puid with
      | none => exact h
      | some pu =>
          cases hp : alGet r.players pid with
          | none => exact h
          | some p =>
              dsimp only
              split
              · next halive =>
                  cases hty : pu.type <;>
                  · dsimp only
                    intro kp hkp
                    rcases mem_alSet hkp with hk | hk
                    · exact h kp hk
                    · rw [hk]
                      first
                      | exact h (pid, p) (alGet_mem hp)
                      | exact healthOkH_heal (h (pid, p) (alGet_mem hp)) halive
              · exact h
  | checkWin =>
      show healthInv (checkWinCondition r).1
      intro kp hkp
      rw [checkWin_players] at hkp
      exact h kp hkp

theorem healthInv_mkRoom (rid : String) (mp : Nat) (orc : Int → Int → Bool) :
    healthInv (mkRoom rid mp orc) := by
  intro kp hkp
  simp [mkRoom] at hkp

theorem healthInv_applyOps (ops : List Op) (r : Room) (h : healthInv r) :
    healthInv (applyOps ops r) := by
  induction ops generalizing r with
  | nil => exact h
  | cons op rest ih => exact ih (applyOp op r) (healthInv_applyOp op r h)

/-- C5 (corrected): in the handler-reachable room rC5 the killing blow took
the slot-2 player from health 5 to health -20, which is stored, so the
claimed lower bound of 0 fails. -/
theorem C5_counterexample :
    Reach rC5
    ∧ (alGet rC5.players 2).map Player.health = some (-20)
    ∧ ((-20 : Int) < 0) := by
  refine ⟨⟨"room1", 4, _, _, rfl⟩, by decide, by decide⟩

/-- C5 (amended): in every room reachable by any sequence of room operations
from a fresh room, every seated player's health is at most 100 and greater
than -25, and every alive player's health is positive; the upper cap of 100
always holds, but the 25-damage killing blow can store a negative health
value (bounded below by one blow past zero). -/
theorem C5_amended (r : Room) (pid : Nat) (p : Player) (hr : Reach r)
    (hp : alGet r.players pid = some p) :
    p.health ≤ 100 ∧ -25 < p.health ∧ (p.isAlive = true → 0 < p.health) := by
  obtain ⟨rid, mp, orc, ops, rfl⟩ := hr
  exact healthInv_applyOps ops _ (healthInv_mkRoom rid mp orc) (pid, p) (alGet_mem hp)

/-- C5 witness: the amended bound applied to the seated player of a concrete
reachable room. -/
theorem C5_witness :
    pC5w.health ≤ 100 ∧ -25 < pC5w.health ∧ (pC5w.isAlive = true → 0 < pC5w.health) :=
  C5_amended rC5w 1 pC5w ⟨"w5", 4, _, _, rfl⟩ rfl

/-! ## Claim C8: chain-reaction termination -/

theorem explodeBomb_some_bombs {r : Room} {bid : String} {o : List (Option PType)}
    {b : Bomb} (h : alGet r.bombs bid = some b) :
    (explodeBomb r bid o).1.bombs = alDelete r.bombs bid := by
  unfold explodeBomb
  rw [h]
  dsimp only
  rw [checkWin_bombs]

theorem explodeBomb_some_chain {r : Room} {bid : String} {o : List (Option PType)}
    {b : Bomb} (h : alGet r.bombs bid = some b) :
    (explodeBomb r bid o).2.2
      = chainIds bid (calculateExplosion b.x b.y b.power r.destructibleBlocks)
          (alDelete r.bombs bid) := by
  unfold explodeBomb
  rw [h]

theorem chainIds_length_le (bid : String) (areas : List (Int × Int))
    (bombs : List (String × Bomb)) :
    (chainIds bid areas bombs).length ≤ bombs.length := by
  unfold chainIds
  exact List.length_filterMap_le _ _

theorem chainIds_mem {bid : String} {areas : List (Int × Int)}
    {bombs : List (String × Bomb)} {c : String} (h : c ∈ chainIds bid areas bombs) :
    ∃ kb ∈ bombs, kb.2.id = c := by
  unfold chainIds at h
  rcases List.mem_filterMap.mp h with ⟨kb, hmem, hfn⟩
  refine ⟨kb, hmem, ?_⟩
  split at hfn
  · cases hfn
  · split at hfn
    · cases hfn
      rfl
    · cases hfn

theorem detonationRun_nil (os : Nat → List (Option PType)) :
    ∀ (n : Nat) (r : Room), detonationRun os n (r, []) = (r, []) := by
  intro n
  induction n with
  | zero => intro r; rfl
  | succ n ih => intro r; exact ih r

theorem bombs_empty_of_cover {r : Room}
    (hc : ∀ kb ∈ r.bombs, kb.1 ∈ ([] : List String)) : r.bombs = [] := by
  cases hb : r.bombs with
  | nil => rfl
  | cons kb rest =>
      exact absurd (hc kb (by rw [hb]; exact List.mem_cons_self _ _)) (by simp)

theorem detonation_terminates (os : Nat → List (Option PType)) :
    ∀ (n : Nat) (st : Room × List String), detMeasure st ≤ n →
      bombKeysOk st.1 → (∀ kb ∈ st.1.bombs, kb.1 ∈ st.2) →
      (detonationRun os n st).2 = [] ∧ (detonationRun os n st).1.bombs = [] := by
  intro n
  induction n with
  | zero =>
      intro st hm hk hc
      obtain ⟨r, pending⟩ := st
      have hp : pending = [] := by
        unfold detMeasure at hm
        simp only [List.length_eq_zero] at hm ⊢
        have : pending.length = 0 := by omega
        exact List.length_eq_zero.mp this
      subst hp
      exact ⟨rfl, bombs_empty_of_cover hc⟩
  | succ n ih =>
      intro st hm hk hc
      obtain ⟨r, pending⟩ := st
      cases pending with
      | nil =>
          rw [show detonationRun os (n + 1) (r, []) = (r, []) from detonationRun_nil os (n + 1) r]
          exact ⟨rfl, bombs_empty_of_cover hc⟩
      | cons id rest =>
          cases hb : alGet r.bombs id with
          | none =>
              have hstep : detonationStep (os n) (r, id :: rest) = (r, rest) := by
                unfold detonationStep
                dsimp only
                rw [explodeBomb_none hb]
                simp
              have hrun : detonationRun os (n + 1) (r, id :: rest)
                  = detonationRun os n (r, rest) := by
                show detonationRun os n (detonationStep (os n) (r, id :: rest))
                  = detonationRun os n (r, rest)
                rw [hstep]
              rw [hrun]
              refine ih (r, rest) ?_ hk ?_
              · unfold detMeasure at hm ⊢
                dsimp only at hm ⊢
                simp only [List.length_cons] at hm
                omega
              · intro kb hkb
                have hne := alGet_none_keys hb kb hkb
                have hin := hc kb hkb
                rcases List.mem_cons.mp hin with h1 | h1
                · exact absurd h1 hne
                · exact h1
          | some b =>
              have hbombs : (explodeBomb r id (os n)).1.bombs = alDelete r.bombs id :=
                explodeBomb_some_bombs hb
              have hchain := explodeBomb_some_chain (o := os n) hb
              have hrun : detonationRun os (n + 1) (r, id :: rest)
                  = detonationRun os n
                      ((explodeBomb r id (os n)).1, rest ++ (explodeBomb r id (os n)).2.2) := by
                rfl
              rw [hrun]
              refine ih _ ?_ ?_ ?_
              · unfold detMeasure at hm ⊢
                dsimp only at hm ⊢
                simp only [List.length_cons, List.length_append] at hm ⊢
                rw [hbombs]
                have hlt : (alDelete r.bombs id).length < r.bombs.length :=
                  length_alDelete_lt hb
                have hch : (explodeBomb r id (os n)).2.2.length
                    ≤ (alDelete r.bombs id).length := by
                  rw [hchain]
                  exact chainIds_length_le _ _ _
                obtain ⟨C, hC⟩ : ∃ C, r.bombs.length = C + 1 :=
                  ⟨r.bombs.length - 1, by omega⟩
                have hsq : r.bombs.length * r.bombs.length = C * C + C + C + 1 := by
                  rw [hC]; ring
                have hB' : (alDelete r.bombs id).length ≤ C := by omega
                have hmul : (alDelete r.bombs id).length * (alDelete r.bombs id).length
                    ≤ C * C := Nat.mul_le_mul hB' hB'
                omega
              · intro kb hkb
                rw [hbombs] at hkb
                exact hk kb (mem_alDelete hkb).1
              · intro kb hkb
                rw [hbombs] at hkb
                have hmem := mem_alDelete hkb
                have hin := hc kb hmem.1
                rcases List.mem_cons.mp hin with h1 | h1
                · exact absurd h1 hmem.2
                · exact List.mem_append_left _ h1

/-- C8 (confirmed): detonating an id whose bomb is gone is a complete no-op;
an effective detonation deletes its bomb first (the live-bomb count strictly
decreases) and every chain detonation it schedules names a bomb that is still
live after the deletion; and when every live bomb's id is pending (each has a
scheduled fuse expiry), running the chain-reaction process for detMeasure
steps empties both the pending list and the bomb map: the process terminates
with zero bombs. -/
theorem C8_confirmed (os : Nat → List (Option PType)) (r : Room)
    (pending : List String) (hk : bombKeysOk r)
    (hc : ∀ kb ∈ r.bombs, kb.1 ∈ pending) :
    (∀ (r2 : Room) (bid : String) (o : List (Option PType)),
        alGet r2.bombs bid = none → explodeBomb r2 bid o = (r2, [], []))
    ∧ (∀ (r2 : Room) (bid : String) (o : List (Option PType)) (b : Bomb),
        alGet r2.bombs bid = some b →
          (explodeBomb r2 bid o).1.bombs.length < r2.bombs.length
          ∧ ∀ c ∈ (explodeBomb r2 bid o).2.2,
              ∃ kb ∈ (explodeBomb r2 bid o).1.bombs, kb.2.id = c)
    ∧ (detonationRun os (detMeasure (r, pending)) (r, pending)).2 = []
    ∧ (detonationRun os (detMeasure (r, pending)) (r, pending)).1.bombs = [] := by
  refine ⟨fun r2 bid o h => explodeBomb_none h, ?_, ?_, ?_⟩
  · intro r2 bid o b h
    constructor
    · rw [explodeBomb_some_bombs h]
      exact length_alDelete_lt h
    · intro c hcc
      rw [explodeBomb_some_chain h] at hcc
      rw [explodeBomb_some_bombs h]
      exact chainIds_mem hcc
  · exact (detonation_terminates os _ (r, pending) (le_refl _) hk hc).1
  · exact (detonation_terminates os _ (r, pending) (le_refl _) hk hc).2

/-- C8 witness: a concrete room with two pending bombs 64 units apart; the
process empties the bomb map. -/
theorem C8_witness :
    (detonationRun (fun _ => []) (detMeasure (rW8, ["bX", "bY"]))
      (rW8, ["bX", "bY"])).1.bombs = [] :=
  (C8_confirmed (fun _ => []) rW8 ["bX", "bY"] (by unfold bombKeysOk; decide)
    (by decide)).2.2.2

/-! ## Claim C3: resuming a transitioning player -/

theorem rejoinAux_spec (sockId : String) (td : V2.TransData) :
    ∀ (ps : List (Nat × Player)) (res : List (Nat × Player) × Player),
      V2.rejoinAux sockId td ps = some res →
      ∃ pre pid p post,
        ps = pre ++ (pid, p) :: post
        ∧ (∀ q ∈ pre, ¬(q.2.name = td.playerName ∧ q.1 = td.playerId))
        ∧ p.name = td.playerName ∧ pid = td.playerId
        ∧ res.1 = pre ++ (pid, { p with socket := sockId }) :: post
        ∧ res.2 = { p with socket := sockId } := by
  intro ps
  induction ps with
  | nil =>
      intro res h
      exact absurd h (by simp [V2.rejoinAux])
  | cons kp rest ih =>
      intro res h
      obtain ⟨pid0, p0⟩ := kp
      simp only [V2.rejoinAux] at h
      split at h
      · next hmatch =>
          injection h with h'
          subst h'
          exact ⟨[], pid0, p0, rest, rfl, by intro q hq; simp at hq,
            hmatch.1, hmatch.2, rfl, rfl⟩
      · next hmatch =>
          cases hrec : V2.rejoinAux sockId td rest with
          | none =>
              rw [hrec] at h
              cases h
          | some res' =>
              rw [hrec] at h
              injection h with h'
              subst h'
              obtain ⟨pre, pid, p, post, h1, h2, h3, h4, h5, h6⟩ := ih res' hrec
              refine ⟨(pid0, p0) :: pre, pid, p, post, ?_, ?_, h3, h4, ?_, h6⟩
              · rw [h1]
                rfl
              · intro q hq
                rcases List.mem_cons.mp hq with hq1 | hq1
                · rw [hq1]
                  exact hmatch
                · exact h2 q hq1
              · show (pid0, p0) :: res'.1 = ((pid0, p0) :: pre) ++ _
                rw [h5]
                rfl

/-- C3 (corrected): in a concrete mid-playing room where B resumes over a
live transition record, the snapshot broadcastToRoom sends gameStateUpdate to
every seated player's socket; in particular the other player's connection
sockA receives the snapshot, so the claim that only the reconnecting
connection receives one fails. -/
theorem C3_counterexample :
    (⟨"sockA", "gameStateUpdate"⟩ : Ev)
      ∈ (V2.handleJoinRoom transC3 [] roomC3 "sockNewB" "roomX" "B" none).2.2.2.1
    ∧ (alGet roomC3.players 1).map Player.socket = some "sockA"
    ∧ "sockA" ≠ "sockNewB" := by
  refine ⟨by decide, by decide, by decide⟩

/-- C3 (amended): when a join's credentials match a live transition record
for the room and the recorded seat is still present, the handler rebinds
exactly that seat's connection identity to the new connection (the first
matching seat; all other seats unchanged), deletes the transition record,
broadcasts no playerJoined event, and, when the room phase is playing, emits
a gameStarted snapshot to the reconnecting connection and broadcasts a
gameStateUpdate snapshot to every seated player's socket, not only to the
reconnecting connection. -/
theorem C3_amended (trans : List (String × V2.TransData))
    (ps : List (String × PInfo)) (room : Room)
    (sockId dataRoomId dataName : String) (dataPid : Option Nat)
    (oldSock : String) (td : V2.TransData) (res : Room × Player)
    (hfind : V2.transFind trans dataRoomId dataName dataPid = some (oldSock, td))
    (hrej : V2.rejoinTransitioningPlayer room sockId td = some res) :
    V2.handleJoinRoom trans ps room sockId dataRoomId dataName dataPid
      = (res.1, alDelete trans oldSock, alSet ps sockId ⟨dataRoomId, res.2.id⟩,
         ⟨sockId, "roomJoined"⟩ ::
           ((if res.1.gameState = .playing then [(⟨sockId, "gameStarted"⟩ : Ev)] else [])
             ++ (if res.1.gameState = .playing
                  then broadcastToRoom res.1 "gameStateUpdate" else [])),
         [])
    ∧ (∀ e ∈ (V2.handleJoinRoom trans ps room sockId dataRoomId dataName dataPid).2.2.2.1,
        e.name ≠ "playerJoined")
    ∧ res.2.socket = sockId
    ∧ ∃ pre pid p post,
        room.players = pre ++ (pid, p) :: post
        ∧ (∀ q ∈ pre, ¬(q.2.name = td.playerName ∧ q.1 = td.playerId))
        ∧ p.name = td.playerName ∧ pid = td.playerId
        ∧ res.1.players = pre ++ (pid, { p with socket := sockId }) :: post
        ∧ res.2 = { p with socket := sockId } := by
  have hres : ∃ raux, V2.rejoinAux sockId td room.players = some raux
      ∧ res.1 = { room with players := raux.1 } ∧ res.2 = raux.2 := by
    unfold V2.rejoinTransitioningPlayer at hrej
    cases haux : V2.rejoinAux sockId td room.players with
    | none =>
        rw [haux] at hrej
        cases hrej
    | some raux =>
        rw [haux] at hrej
        injection hrej with h'
        exact ⟨raux, rfl, congrArg Prod.fst h'.symm, congrArg Prod.snd h'.symm⟩
  obtain ⟨raux, haux, hres1, hres2⟩ := hres
  obtain ⟨pre, pid, p, post, h1, h2, h3, h4, h5, h6⟩ :=
    rejoinAux_spec sockId td room.players raux haux
  have hmain : V2.handleJoinRoom trans ps room sockId dataRoomId dataName dataPid
      = (res.1, alDelete trans oldSock, alSet ps sockId ⟨dataRoomId, res.2.id⟩,
         ⟨sockId, "roomJoined"⟩ ::
           ((if res.1.gameState = .playing then [(⟨sockId, "gameStarted"⟩ : Ev)] else [])
             ++ (if res.1.gameState = .playing
                  then broadcastToRoom res.1 "gameStateUpdate" else [])),
         []) := by
    unfold V2.handleJoinRoom
    rw [hfind]
    dsimp only
    rw [hrej]
  refine ⟨hmain, ?_, ?_, pre, pid, p, post, h1, h2, h3, h4, ?_, ?_⟩
  · intro e he
    rw [hmain] at he
    dsimp only at he
    rcases List.mem_cons.mp he with he1 | he1
    · rw [he1]
      show "roomJoined" ≠ "playerJoined"
      decide
    · rcases List.mem_append.mp he1 with he2 | he2
      · split at he2
        · rcases List.mem_singleton.mp he2 with he3
          rw [he3]
          show "gameStarted" ≠ "playerJoined"
          decide
        · cases he2
      · split at he2
        · rcases List.mem_map.mp he2 with ⟨kq, _, he3⟩
          rw [← he3]
          show "gameStateUpdate" ≠ "playerJoined"
          decide
        · cases he2
  · rw [hres2, h6]
  · rw [hres1, h5]
  · rw [hres2, h6]

/-- C3 witness: the amended theorem applied to the concrete reconnection of
sockNewB over the transition record of sockOldB: the seat's connection
identity is rebound to the new connection. -/
theorem C3_witness : resC3.2.socket = "sockNewB" :=
  (C3_amended transC3 [] roomC3 "sockNewB" "roomX" "B" none "sockOldB" tdC3
    resC3 rfl rfl).2.2.1

end Bombsquad
